import Mathlib

/-!
Verification of the anxiety-js request dispatch pipeline.

Shallow embedding of the core of the repository:
* the route-parameter decorators and metadata record (route-params decorator file),
* the request-mapping decorators (createMappingDecorator) and the Controller decorator,
* the UseMiddleware decorator,
* RouterEngine.registerController / combinePaths / extractMethodArguments
  (file router-engine, the one logging with the emoji),
* a second, textually parallel RouterEngine shipped in the repository
  (embedded separately in namespace AnxV2),
* GlobalExceptionFilter.catch.

Strings are handled through their underlying character lists where the
JavaScript source manipulates them with regular expressions, so that the
regex semantics is spelled out explicitly.
-/

namespace Anx

/-- HTTP methods of the union type in RouteDefinition. -/
inductive HttpMethod where
  | get
  | post
  | put
  | delete
  | patch
  | options
  | head
deriving DecidableEq, Repr

/-- Embedding of the RouteDefinition record: path, method, methodName.
The optional middlewares field of the interface is never written by the
decorators nor read by the engine, so it is omitted. -/
structure RouteDefinition where
  path : String
  method : HttpMethod
  methodName : String
deriving DecidableEq, Repr

/-- Route dynamicity test of registerController: a.path.includes(":").
Since the needle is the single character colon, substring inclusion is
character membership. -/
def isDynamicRoute (r : RouteDefinition) : Bool :=
  r.path.data.contains ':'

/-- Sort key of the registerController comparator: statics (0) before
dynamics (1); the comparator returns 0 on pairs with equal dynamicity. -/
def routeKey (r : RouteDefinition) : Nat :=
  if isDynamicRoute r then 1 else 0

/-- Stable insertion of a route into an already sorted list: the new route
goes before the first element with a key not smaller than its own.  Used to
model Array.prototype.sort with the comparator of registerController, which
is a stable sort (ECMAScript 2019 requires sort stability). -/
def insertRoute (r : RouteDefinition) : List RouteDefinition → List RouteDefinition
  | [] => [r]
  | s :: rest => if routeKey r ≤ routeKey s then r :: s :: rest else s :: insertRoute r rest

/-- Model of routes.sort(comparator) in registerController: a stable sort
putting static routes before dynamic ones and preserving the relative
order inside each group. -/
def sortRoutes (l : List RouteDefinition) : List RouteDefinition :=
  l.foldr insertRoute []

/-- Character test used to model the truthiness filter of combinePaths:
path && path.trim() !== "" keeps exactly the strings holding at least one
non-whitespace character (the empty string is falsy and trims to itself). -/
def keepSegment (s : String) : Bool :=
  s.data.any (fun c => !c.isWhitespace)

/-- Models one segment cleaning step of combinePaths, the call
path.replace(regex, "") where the regex matches an anchored leading slash
or an anchored trailing slash, globally.  The two anchored matches cannot
overlap, except that a lone slash is consumed entirely by the leading
alternative; so the replace removes at most one leading and at most one
trailing slash. -/
def stripSlash (l : List Char) : List Char :=
  let t := match l with
    | '/' :: rest => rest
    | other => other
  if t.getLast? = some '/' then t.dropLast else t

/-- Joining of the cleaned segments, Array.prototype.join with separator
slash. -/
def joinSlash : List (List Char) → List Char
  | [] => []
  | [x] => x
  | x :: rest => x ++ '/' :: joinSlash rest

/-- Final cleanup of combinePaths, result.replace(trailing-slash-regex, ""):
removes one trailing slash when present. -/
def dropTrailSlash (l : List Char) : List Char :=
  if l.getLast? = some '/' then l.dropLast else l

/-- Embedding of RouterEngine.combinePaths on character lists. -/
def combineCL (paths : List (List Char)) : List Char :=
  let cleanPaths := (paths.filter (fun p => keepSegment ⟨p⟩)).map stripSlash
  let result := '/' :: joinSlash cleanPaths
  if result = ['/'] then ['/'] else dropTrailSlash result

/-- Embedding of RouterEngine.combinePaths: filter out falsy or
whitespace-only segments, strip a leading and a trailing slash from each
survivor, join with single slashes after a leading slash, and collapse to
the bare slash when nothing remains. -/
def combinePaths (paths : List String) : String :=
  ⟨combineCL (paths.map String.data)⟩

/-- Middleware class references are opaque to the engine; they are
identified by name. -/
abbrev MiddlewareRef := String

/-- Metadata attached to one controller class, as read back by
registerController: the routes list under ROUTES_METADATA, the class level
middleware list under MIDDLEWARE_METADATA, the per-method middleware lists
under MIDDLEWARE_METADATA on the prototype, and the controller path prefix
under the controller-prefix key (empty string when absent). -/
structure ControllerMetadata where
  routes : List RouteDefinition
  classMiddlewares : List MiddlewareRef
  methodMiddlewares : List (String × List MiddlewareRef)
  pfx : String
deriving DecidableEq, Repr

/-- Lookup of the method level middleware list, defaulting to the empty
list exactly as getMetadata(...) || [] does. -/
def methodMwsOf (meta : ControllerMetadata) (methodName : String) : List MiddlewareRef :=
  (meta.methodMiddlewares.lookup methodName).getD []

/-- One binding performed on the transport router by registerController:
router[route.method](fullPath, ...expressMiddlewares, handler).  The
middlewares field records the chain order; handlerName records which
controller method the handler wraps. -/
structure RouteBinding where
  method : HttpMethod
  fullPath : String
  middlewares : List MiddlewareRef
  handlerName : String
deriving DecidableEq, Repr

/-- Embedding of RouterEngine.registerController: sort the routes
(statics first, stable), then bind each route in order with full path
combinePaths(basePath, controllerPrefix, route.path) and middleware chain
classMiddlewares ++ methodMiddlewares.  The returned list order is the
order in which bindings are handed to the transport router. -/
def registerController (meta : ControllerMetadata) (basePath : String) : List RouteBinding :=
  (sortRoutes meta.routes).map (fun route =>
    { method := route.method
      fullPath := combinePaths [basePath, meta.pfx, route.path]
      middlewares := meta.classMiddlewares ++ methodMwsOf meta route.methodName
      handlerName := route.methodName })

/-- Parameter sources of the ParamMetadata union type in the route-params
decorator file. -/
inductive ParamType where
  | param
  | query
  | body
  | headers
  | request
  | response
deriving DecidableEq, Repr

/-- Embedding of the ParamMetadata record: argument index, source type and
optional key (the decorators Param, Query and Headers store their optional
key argument; Body, Req and Res store none). -/
structure ParamMetadata where
  index : Nat
  type : ParamType
  key : Option String
deriving DecidableEq, Repr

/-- JavaScript truthiness of the optional key field: undefined and the
empty string are falsy, every other string is truthy. -/
def keyTruthy : Option String → Bool
  | none => false
  | some s => s ≠ ""

/-- Values the argument resolver can produce.  The maps carried by the
request hold string entries; a whole map, the parsed body, the request
handle and the response handle are each represented by a constructor of
their own, and a missing property reads as undef. -/
inductive Value where
  | undef : Value
  | str : String → Value
  | strMap : List (String × String) → Value
  | bodyVal : String → Value
  | reqRef : Value
  | resRef : Value
deriving DecidableEq, Repr

/-- Embedding of the request fields read by extractMethodArguments: the
path-parameter map, the query map, the header map and the parsed body
(kept opaque, identified by a string). -/
structure AnxietyRequest where
  params : List (String × String)
  query : List (String × String)
  headers : List (String × String)
  body : String
deriving DecidableEq, Repr

/-- Property read m[k] on a JavaScript object modelled as an association
list: the stored string when the key is present, undefined otherwise. -/
def strLookup (m : List (String × String)) (k : String) : Value :=
  match m.lookup k with
  | some v => Value.str v
  | none => Value.undef

/-- Resolution of a single descriptor, the switch statement of
extractMethodArguments.  The response handle only ever surfaces as the
resRef value, so it needs no further structure. -/
def resolveParam (req : AnxietyRequest) (p : ParamMetadata) : Value :=
  match p.type with
  | ParamType.param =>
      if keyTruthy p.key then strLookup req.params (p.key.getD "") else Value.strMap req.params
  | ParamType.query =>
      if keyTruthy p.key then strLookup req.query (p.key.getD "") else Value.strMap req.query
  | ParamType.body => Value.bodyVal req.body
  | ParamType.headers =>
      if keyTruthy p.key then strLookup req.headers (p.key.getD "") else Value.strMap req.headers
  | ParamType.request => Value.reqRef
  | ParamType.response => Value.resRef

/-- Sparse-array assignment args[i] = v of JavaScript: indices inside the
current length are updated; assigning past the end pads the holes with
undefined. -/
def setIdx : List Value → Nat → Value → List Value
  | [], 0, v => [v]
  | [], Nat.succ i, v => Value.undef :: setIdx [] i v
  | _ :: rest, 0, v => v :: rest
  | x :: rest, Nat.succ i, v => x :: setIdx rest i v

/-- Reading args[i]: undefined beyond the end of the array. -/
def argAt (args : List Value) (i : Nat) : Value :=
  args.getD i Value.undef

/-- Stable insertion of a descriptor into a list already ascending by
index: the new element goes before the first one with an index not smaller
than its own. -/
def insertParam (p : ParamMetadata) : List ParamMetadata → List ParamMetadata
  | [] => [p]
  | q :: rest => if p.index ≤ q.index then p :: q :: rest else q :: insertParam p rest

/-- Model of paramMetadata.sort((a, b) => a.index - b.index): a stable
sort ascending by argument index (Array.prototype.sort is stable). -/
def sortParams (l : List ParamMetadata) : List ParamMetadata :=
  l.foldr insertParam []

/-- Embedding of RouterEngine.extractMethodArguments: sort the descriptors
by index, then assign args[param.index] = resolved value in order over an
initially empty array. -/
def extractMethodArguments (req : AnxietyRequest) (ps : List ParamMetadata) : List Value :=
  (sortParams ps).foldl (fun args p => setIdx args p.index (resolveParam req p)) []

/-- Metadata state of one controller class as written by the decorators:
the routes array under ROUTES_METADATA, the controller path prefix and the
is-controller flag. -/
structure ClassMetadata where
  routes : List RouteDefinition
  pfxVal : Option String
  isControllerFlag : Bool
deriving DecidableEq, Repr

/-- Embedding of one application of a decorator made by
createMappingDecorator(method)(path) to a method named methodName: read
the existing routes array (empty when absent), push the new record, store
the array back. -/
def applyMappingDecorator (method : HttpMethod) (path : String) (methodName : String)
    (m : ClassMetadata) : ClassMetadata :=
  { m with routes := m.routes ++ [{ path := path, method := method, methodName := methodName }] }

/-- Embedding of the Controller decorator: store the prefix argument
(default empty string) and set the is-controller flag, overwriting any
previous values. -/
def applyController (pfxArg : Option String) (m : ClassMetadata) : ClassMetadata :=
  { m with pfxVal := some (pfxArg.getD ""), isControllerFlag := true }

/-- Embedding of one application of the UseMiddleware decorator at either
scope: the stored list becomes existing ++ new (spread concatenation). -/
def applyUseMiddleware (existing newMws : List MiddlewareRef) : List MiddlewareRef :=
  existing ++ newMws

/-- Detector for a doubled slash separator: true exactly when two adjacent
slashes occur somewhere in the character list. -/
def hasDoubleSlash : List Char → Bool
  | c1 :: c2 :: rest => (c1 == '/' && c2 == '/') || hasDoubleSlash (c2 :: rest)
  | _ => false

/-- Well-formedness of a cleaned path segment: nonempty, no leading slash,
no trailing slash, and no doubled slash inside. -/
def goodSeg (l : List Char) : Prop :=
  l ≠ [] ∧ l.head? ≠ some '/' ∧ l.getLast? ≠ some '/' ∧ hasDoubleSlash l = false

instance goodSegDecidable (l : List Char) : Decidable (goodSeg l) := by
  unfold goodSeg
  infer_instance

/-- Which instanceof test a thrown value satisfies in
GlobalExceptionFilter.catch: HttpException, the built-in JavaScript
SyntaxError or TypeError classes, or none of the three. -/
inductive ErrClass where
  | httpExc
  | jsSyntaxError
  | jsTypeError
  | otherError
deriving DecidableEq, Repr

/-- Embedding of a thrown value as seen by the filter.  The empty string
models a falsy or absent message; status and responseVal are the values of
getStatus() and getResponse() and are only consulted on the HttpException
branch; errorProp is the optional error property of HttpException. -/
structure JsError where
  cls : ErrClass
  name : String
  message : String
  stack : Option String
  status : Nat
  responseVal : Value
  errorProp : Option String
deriving DecidableEq, Repr

/-- Request fields read by the filter: originalUrl, method and the
optional correlation identifier context.requestId. -/
structure ReqInfo where
  originalUrl : String
  method : String
  requestId : Option String
deriving DecidableEq, Repr

/-- JavaScript s || fallback on strings: the fallback replaces a falsy
(empty) string. -/
def jsOrStr (s fallback : String) : String :=
  if s = "" then fallback else s

/-- JavaScript exception.error || exception.name: the error property when
present and truthy, the class name otherwise. -/
def jsOrProp (p : Option String) (fallback : String) : String :=
  match p with
  | some e => if e = "" then fallback else e
  | none => fallback

/-- Classification step of GlobalExceptionFilter.catch, producing the
triple (status, message, error) assigned by its branch cascade. -/
def classifyException (isProd : Bool) (exc : JsError) : Nat × Value × String :=
  if exc.cls = ErrClass.httpExc then
    (exc.status, exc.responseVal, jsOrProp exc.errorProp exc.name)
  else if exc.cls = ErrClass.jsSyntaxError then
    (400, Value.str "Invalid JSON syntax", "Bad Request")
  else if exc.cls = ErrClass.jsTypeError then
    (400, Value.str "Invalid data type", "Bad Request")
  else if exc.name = "ValidationError" then
    (400, Value.str exc.message, "Validation Failed")
  else if exc.name = "UnauthorizedError" then
    (401, Value.str (jsOrStr exc.message "Authentication required"), "Unauthorized")
  else if exc.name = "ForbiddenError" then
    (403, Value.str (jsOrStr exc.message "Access denied"), "Forbidden")
  else if exc.name = "NotFoundError" then
    (404, Value.str (jsOrStr exc.message "Resource not found"), "Not Found")
  else
    (500,
     Value.str (if isProd then "Internal server error"
                else jsOrStr exc.message "An unexpected error occurred"),
     "Internal Server Error")

/-- JSON-observable body written by the filter.  The stack property is
spread in only outside production, and res.json drops properties whose
value is undefined, so the field is an Option that is none in production.
The requestId field is added only when context.requestId is truthy. -/
structure ErrorResponseBody where
  statusCode : Nat
  timestamp : String
  path : String
  method : String
  error : String
  message : Value
  stack : Option String
  requestId : Option String
deriving DecidableEq, Repr

/-- Response produced by the filter: the status passed to res.status and
the JSON body passed to res.json. -/
structure FilterOutput where
  resStatus : Nat
  body : ErrorResponseBody
deriving DecidableEq, Repr

/-- Truthiness filter on req.context?.requestId. -/
def reqIdOf (req : ReqInfo) : Option String :=
  match req.requestId with
  | some r => if r = "" then none else some r
  | none => none

/-- Embedding of GlobalExceptionFilter.catch.  The timestamp string (a
reading of the clock in the source) is passed in as a parameter; console
logging is omitted as it does not touch the response.  The function is
total: every thrown value yields exactly one written response and nothing
is rethrown. -/
def catchException (isProd : Bool) (timestamp : String) (req : ReqInfo) (exc : JsError) :
    FilterOutput :=
  let c := classifyException isProd exc
  { resStatus := c.1
    body := { statusCode := c.1
              timestamp := timestamp
              path := req.originalUrl
              method := req.method
              error := c.2.2
              message := c.2.1
              stack := if isProd then none else exc.stack
              requestId := reqIdOf req } }

end Anx

namespace AnxV2

/-- Dynamicity test of the second RouterEngine file, a.path.includes(":"),
identical in source to the first one. -/
def isDynamicRoute (r : Anx.RouteDefinition) : Bool :=
  r.path.data.contains ':'

/-- Sort key of the second engine comparator. -/
def routeKey (r : Anx.RouteDefinition) : Nat :=
  if isDynamicRoute r then 1 else 0

/-- Stable insertion for the second engine route sort. -/
def insertRoute (r : Anx.RouteDefinition) :
    List Anx.RouteDefinition → List Anx.RouteDefinition
  | [] => [r]
  | s :: rest => if routeKey r ≤ routeKey s then r :: s :: rest else s :: insertRoute r rest

/-- Model of routes.sort(comparator) in the second engine. -/
def sortRoutes (l : List Anx.RouteDefinition) : List Anx.RouteDefinition :=
  l.foldr insertRoute []

/-- Truthiness filter of the second combinePaths. -/
def keepSegment (s : String) : Bool :=
  s.data.any (fun c => !c.isWhitespace)

/-- Segment cleaning of the second combinePaths, same regex replace. -/
def stripSlash (l : List Char) : List Char :=
  let t := match l with
    | '/' :: rest => rest
    | other => other
  if t.getLast? = some '/' then t.dropLast else t

/-- Join step of the second combinePaths. -/
def joinSlash : List (List Char) → List Char
  | [] => []
  | [x] => x
  | x :: rest => x ++ '/' :: joinSlash rest

/-- Final trailing-slash cleanup of the second combinePaths. -/
def dropTrailSlash (l : List Char) : List Char :=
  if l.getLast? = some '/' then l.dropLast else l

/-- Embedding of the second combinePaths on character lists. -/
def combineCL (paths : List (List Char)) : List Char :=
  let cleanPaths := (paths.filter (fun p => keepSegment ⟨p⟩)).map stripSlash
  let result := '/' :: joinSlash cleanPaths
  if result = ['/'] then ['/'] else dropTrailSlash result

/-- Embedding of the second RouterEngine.combinePaths. -/
def combinePaths (paths : List String) : String :=
  ⟨combineCL (paths.map String.data)⟩

/-- Descriptor resolution switch of the second
RouterEngine.extractMethodArguments. -/
def resolveParam (req : Anx.AnxietyRequest) (p : Anx.ParamMetadata) : Anx.Value :=
  match p.type with
  | Anx.ParamType.param =>
      if Anx.keyTruthy p.key then Anx.strLookup req.params (p.key.getD "")
      else Anx.Value.strMap req.params
  | Anx.ParamType.query =>
      if Anx.keyTruthy p.key then Anx.strLookup req.query (p.key.getD "")
      else Anx.Value.strMap req.query
  | Anx.ParamType.body => Anx.Value.bodyVal req.body
  | Anx.ParamType.headers =>
      if Anx.keyTruthy p.key then Anx.strLookup req.headers (p.key.getD "")
      else Anx.Value.strMap req.headers
  | Anx.ParamType.request => Anx.Value.reqRef
  | Anx.ParamType.response => Anx.Value.resRef

/-- Stable insertion for the second engine descriptor sort. -/
def insertParam (p : Anx.ParamMetadata) :
    List Anx.ParamMetadata → List Anx.ParamMetadata
  | [] => [p]
  | q :: rest => if p.index ≤ q.index then p :: q :: rest else q :: insertParam p rest

/-- Model of the second engine paramMetadata.sort((a, b) => a.index - b.index). -/
def sortParams (l : List Anx.ParamMetadata) : List Anx.ParamMetadata :=
  l.foldr insertParam []

/-- Embedding of the second RouterEngine.extractMethodArguments. -/
def extractMethodArguments (req : Anx.AnxietyRequest) (ps : List Anx.ParamMetadata) :
    List Anx.Value :=
  (sortParams ps).foldl (fun args p => Anx.setIdx args p.index (resolveParam req p)) []

end AnxV2

open Anx

/-- Inserting a static route always puts it at the front: its key 0 is at
most every key. -/
theorem insertRoute_static (r : RouteDefinition) (h : isDynamicRoute r = false)
    (l : List RouteDefinition) : insertRoute r l = r :: l := by
  cases l with
  | nil => rfl
  | cons s rest => simp [insertRoute, routeKey, h]

/-- Inserting a dynamic route into statics-then-dynamics places it right
after the statics and before the dynamics already present. -/
theorem insertRoute_dynamic (r : RouteDefinition) (h : isDynamicRoute r = true)
    (S D : List RouteDefinition)
    (hS : ∀ s ∈ S, isDynamicRoute s = false)
    (hD : ∀ d ∈ D, isDynamicRoute d = true) :
    insertRoute r (S ++ D) = S ++ r :: D := by
  induction S with
  | nil =>
    cases D with
    | nil => rfl
    | cons d rest =>
      have hd := hD d (List.mem_cons_self d rest)
      simp [insertRoute, routeKey, h, hd]
  | cons s S' ih =>
    have hs := hS s (List.mem_cons_self s S')
    have ih' := ih (fun x hx => hS x (List.mem_cons_of_mem s hx))
    simp [insertRoute, routeKey, h, hs, ih']

/-- Structure theorem for the route sort: it equals the static routes in
original order followed by the dynamic routes in original order. -/
theorem sortRoutes_split (l : List RouteDefinition) :
    sortRoutes l =
      l.filter (fun r => !isDynamicRoute r) ++ l.filter (fun r => isDynamicRoute r) := by
  induction l with
  | nil => rfl
  | cons x xs ih =>
    show insertRoute x (sortRoutes xs) = _
    rw [ih]
    cases hx : isDynamicRoute x with
    | false =>
      rw [insertRoute_static x hx]
      simp [List.filter_cons, hx]
    | true =>
      rw [insertRoute_dynamic x hx _ _
        (fun s hs => by
          have := List.of_mem_filter hs
          simpa using this)
        (fun d hd => List.of_mem_filter hd)]
      simp [List.filter_cons, hx]

/-- The claim C1 example controller metadata, routes declared dynamic
first. -/
def itemsMetaDynFirst : ControllerMetadata :=
  { routes := [{ path := "/items/:id", method := HttpMethod.get, methodName := "getById" },
               { path := "/items/custom", method := HttpMethod.get, methodName := "getCustom" }]
    classMiddlewares := []
    methodMiddlewares := []
    pfx := "" }

/-- The claim C1 example controller metadata, routes declared static
first. -/
def itemsMetaStaticFirst : ControllerMetadata :=
  { routes := [{ path := "/items/custom", method := HttpMethod.get, methodName := "getCustom" },
               { path := "/items/:id", method := HttpMethod.get, methodName := "getById" }]
    classMiddlewares := []
    methodMiddlewares := []
    pfx := "" }

/-- C1: registerController stably sorts the routes read from metadata so
that every route whose path contains a colon placeholder comes after every
route containing none, with relative order inside each group preserved
(first conjunct: the sorted list is exactly statics in declaration order
followed by dynamics in declaration order); consequently for a controller
declaring /items/custom and /items/:id in either order, the static route
is bound to the transport router first (remaining conjuncts, where the
binding list order is the order of router[method](...) calls). -/
theorem c1_static_before_dynamic :
    (∀ routes : List RouteDefinition,
      sortRoutes routes =
        routes.filter (fun r => !isDynamicRoute r) ++ routes.filter (fun r => isDynamicRoute r))
    ∧ (registerController itemsMetaDynFirst "").map (fun b => (b.fullPath, b.handlerName))
        = [("/items/custom", "getCustom"), ("/items/:id", "getById")]
    ∧ (registerController itemsMetaStaticFirst "").map (fun b => (b.fullPath, b.handlerName))
        = [("/items/custom", "getCustom"), ("/items/:id", "getById")] := by
  refine ⟨sortRoutes_split, by decide, by decide⟩

/-- C4: for every route the composed middleware chain is exactly the class
level list concatenated with the method level list, with no re-sorting or
deduplication (first conjunct); the UseMiddleware decorator appends in
declaration order (second conjunct); for class middleware [A, B] and
method middleware [C] the bound order is exactly [A, B, C] (third
conjunct). -/
theorem c4_middleware_chain_order :
    (∀ (meta : ControllerMetadata) (basePath : String),
      (registerController meta basePath).map (fun b => b.middlewares) =
        (sortRoutes meta.routes).map
          (fun r => meta.classMiddlewares ++ methodMwsOf meta r.methodName))
    ∧ (∀ existing newMws : List MiddlewareRef,
        applyUseMiddleware existing newMws = existing ++ newMws)
    ∧ (registerController
        { routes := [{ path := "/x", method := HttpMethod.get, methodName := "m" }]
          classMiddlewares := ["A", "B"]
          methodMiddlewares := [("m", ["C"])]
          pfx := "" } "").map (fun b => b.middlewares) = [["A", "B", "C"]] := by
  refine ⟨fun meta basePath => ?_, fun existing newMws => rfl, by decide⟩
  rw [registerController, List.map_map]
  rfl

/-- C9: each route declaration appends exactly the record
(path, method, methodName) to the routes metadata list, preserving prior
entries and their order, never replacing or deduplicating (duplicate
identical declarations both remain), and never touching the prefix
singleton; the Controller decorator overwrites the prefix singleton with
its argument, defaulting to the empty string. -/
theorem c9_route_metadata_append :
    (∀ (m : ClassMetadata) (M : HttpMethod) (P N : String),
      (applyMappingDecorator M P N m).routes
          = m.routes ++ [{ path := P, method := M, methodName := N }]
      ∧ (applyMappingDecorator M P N m).pfxVal = m.pfxVal
      ∧ (applyMappingDecorator M P N (applyMappingDecorator M P N m)).routes
          = m.routes ++ [{ path := P, method := M, methodName := N },
                         { path := P, method := M, methodName := N }])
    ∧ (∀ (m : ClassMetadata) (pfxArg : Option String),
      (applyController pfxArg m).pfxVal = some (pfxArg.getD "")
      ∧ (applyController pfxArg m).routes = m.routes) := by
  constructor
  · intro m M P N
    refine ⟨rfl, rfl, ?_⟩
    simp [applyMappingDecorator]
  · intro m pfxArg
    exact ⟨rfl, rfl⟩

/-- Pointwise equality of the two route insertion helpers. -/
theorem v2_insertRoute_eq (r : RouteDefinition) (l : List RouteDefinition) :
    AnxV2.insertRoute r l = insertRoute r l := by
  induction l with
  | nil => rfl
  | cons s rest ih =>
    simp [AnxV2.insertRoute, insertRoute, AnxV2.routeKey, routeKey,
      AnxV2.isDynamicRoute, isDynamicRoute, ih]

/-- Pointwise equality of the two route sorts. -/
theorem v2_sortRoutes_eq (l : List RouteDefinition) :
    AnxV2.sortRoutes l = sortRoutes l := by
  induction l with
  | nil => rfl
  | cons x xs ih =>
    show AnxV2.insertRoute x (AnxV2.sortRoutes xs) = insertRoute x (sortRoutes xs)
    rw [ih, v2_insertRoute_eq]

/-- Pointwise equality of the two join helpers. -/
theorem v2_joinSlash_eq (l : List (List Char)) :
    AnxV2.joinSlash l = joinSlash l := by
  induction l with
  | nil => rfl
  | cons x rest ih =>
    cases rest with
    | nil => rfl
    | cons y t => simp [AnxV2.joinSlash, joinSlash]; simpa using ih

/-- The two segment cleaning helpers are the same function. -/
theorem v2_stripSlash_eq : AnxV2.stripSlash = stripSlash := by
  funext l
  cases l with
  | nil => rfl
  | cons c rest => rfl

/-- Pointwise equality of the two combinePaths implementations. -/
theorem v2_combinePaths_eq (paths : List String) :
    AnxV2.combinePaths paths = combinePaths paths := by
  simp [AnxV2.combinePaths, combinePaths, AnxV2.combineCL, combineCL,
    AnxV2.keepSegment, keepSegment, v2_stripSlash_eq,
    AnxV2.dropTrailSlash, dropTrailSlash, v2_joinSlash_eq]

/-- Pointwise equality of the two descriptor resolvers. -/
theorem v2_resolveParam_eq (req : AnxietyRequest) (p : ParamMetadata) :
    AnxV2.resolveParam req p = resolveParam req p := by
  cases p with
  | mk i t k => cases t <;> rfl

/-- Pointwise equality of the two descriptor insertion helpers. -/
theorem v2_insertParam_eq (p : ParamMetadata) (l : List ParamMetadata) :
    AnxV2.insertParam p l = insertParam p l := by
  induction l with
  | nil => rfl
  | cons q rest ih => simp [AnxV2.insertParam, insertParam, ih]

/-- Pointwise equality of the two descriptor sorts. -/
theorem v2_sortParams_eq (l : List ParamMetadata) :
    AnxV2.sortParams l = sortParams l := by
  induction l with
  | nil => rfl
  | cons x xs ih =>
    show AnxV2.insertParam x (AnxV2.sortParams xs) = insertParam x (sortParams xs)
    rw [ih, v2_insertParam_eq]

/-- Congruence of the assignment folds of the two engines. -/
theorem v2_foldAssign_eq (req : AnxietyRequest) (l : List ParamMetadata) (a : List Value) :
    l.foldl (fun args p => setIdx args p.index (AnxV2.resolveParam req p)) a
      = l.foldl (fun args p => setIdx args p.index (resolveParam req p)) a := by
  induction l generalizing a with
  | nil => rfl
  | cons p rest ih => simp [List.foldl_cons, v2_resolveParam_eq, ih]

/-- C10: the two RouterEngine implementations in the repository agree
extensionally on the dispatch core: route sorting, path combination and
argument extraction produce identical results on every input, so either
embedding can serve as the reference for the other. -/
theorem c10_engines_extensionally_equal :
    (∀ l : List RouteDefinition, AnxV2.sortRoutes l = sortRoutes l)
    ∧ (∀ paths : List String, AnxV2.combinePaths paths = combinePaths paths)
    ∧ (∀ (req : AnxietyRequest) (ps : List ParamMetadata),
        AnxV2.extractMethodArguments req ps = extractMethodArguments req ps) := by
  refine ⟨v2_sortRoutes_eq, v2_combinePaths_eq, fun req ps => ?_⟩
  rw [AnxV2.extractMethodArguments, extractMethodArguments, v2_sortParams_eq]
  exact v2_foldAssign_eq req (sortParams ps) []

/-- Reading back a sparse assignment: position i now holds v, every other
position is unchanged. -/
theorem argAt_setIdx (a : List Value) (i : Nat) (v : Value) (j : Nat) :
    argAt (setIdx a i v) j = if j = i then v else argAt a j := by
  induction a generalizing i j with
  | nil =>
    induction i generalizing j with
    | zero => cases j <;> simp [setIdx, argAt]
    | succ i ih =>
      cases j with
      | zero => simp [setIdx, argAt]
      | succ j =>
        simp only [setIdx, argAt, List.getD_cons_succ, Nat.succ_eq_add_one,
          Nat.add_right_cancel_iff]
        exact ih j
  | cons x rest ih =>
    cases i with
    | zero =>
      cases j <;> simp [setIdx, argAt]
    | succ i =>
      cases j with
      | zero => simp [setIdx, argAt]
      | succ j =>
        simp only [setIdx, argAt, List.getD_cons_succ, Nat.succ_eq_add_one,
          Nat.add_right_cancel_iff]
        exact ih i j

/-- Characterization of the assignment fold of extractMethodArguments:
position i of the result holds the resolution of the last descriptor with
index i in processing order, and the prior array content otherwise. -/
theorem argAt_foldAssign (req : AnxietyRequest) (l : List ParamMetadata) (a : List Value)
    (i : Nat) :
    argAt (l.foldl (fun args p => setIdx args p.index (resolveParam req p)) a) i
      = (((l.filter (fun p => p.index == i)).getLast?).map (resolveParam req)).getD (argAt a i) := by
  induction l generalizing a with
  | nil => simp
  | cons p rest ih =>
    rw [List.foldl_cons, ih, List.filter_cons]
    cases hpi : (p.index == i) with
    | false =>
      have hne : ¬ i = p.index := fun h => by simp [h] at hpi
      simp only [Bool.false_eq_true, if_false, argAt_setIdx, hne]
    | true =>
      have hii : p.index = i := by simpa using hpi
      simp only [if_true]
      cases hrf : rest.filter (fun p => p.index == i) with
      | nil =>
        simp [argAt_setIdx, hii]
      | cons q qs =>
        rw [List.getLast?_cons_cons]
        have hne : (q :: qs) ≠ [] := List.cons_ne_nil q qs
        rw [List.getLast?_eq_getLast _ hne]
        simp

/-- Stable insertion permutes: the result holds the new element plus the
old list. -/
theorem insertParam_perm (p : ParamMetadata) (l : List ParamMetadata) :
    (insertParam p l).Perm (p :: l) := by
  induction l with
  | nil => exact List.Perm.refl _
  | cons q rest ih =>
    by_cases h : p.index ≤ q.index
    · simp [insertParam, h]
    · simp only [insertParam, if_neg h]
      exact ((ih.cons q).trans (List.Perm.swap p q rest))

/-- The descriptor sort is a permutation of its input. -/
theorem sortParams_perm (l : List ParamMetadata) : (sortParams l).Perm l := by
  induction l with
  | nil => exact List.Perm.refl _
  | cons x xs ih =>
    show (insertParam x (sortParams xs)).Perm (x :: xs)
    exact (insertParam_perm x (sortParams xs)).trans (ih.cons x)

/-- Stable insertion preserves ascending order by index. -/
theorem insertParam_sorted (p : ParamMetadata) (l : List ParamMetadata)
    (h : List.Sorted (fun a b : ParamMetadata => a.index ≤ b.index) l) :
    List.Sorted (fun a b : ParamMetadata => a.index ≤ b.index) (insertParam p l) := by
  induction l with
  | nil => simp [insertParam]
  | cons q rest ih =>
    rw [List.sorted_cons] at h
    obtain ⟨hq, hrest⟩ := h
    by_cases hpq : p.index ≤ q.index
    · simp only [insertParam, if_pos hpq]
      rw [List.sorted_cons]
      refine ⟨?_, by rw [List.sorted_cons]; exact ⟨hq, hrest⟩⟩
      intro b hb
      rcases List.mem_cons.mp hb with hbq | hbr
      · rw [hbq]; exact hpq
      · exact Nat.le_trans hpq (hq b hbr)
    · simp only [insertParam, if_neg hpq]
      rw [List.sorted_cons]
      refine ⟨?_, ih hrest⟩
      intro b hb
      rcases List.mem_cons.mp ((insertParam_perm p rest).mem_iff.mp hb) with hbp | hbr
      · rw [hbp]
        exact Nat.le_of_lt (Nat.lt_of_not_le hpq)
      · exact hq b hbr

/-- The descriptor sort is ascending by argument index. -/
theorem sortParams_sorted (l : List ParamMetadata) :
    List.Sorted (fun a b : ParamMetadata => a.index ≤ b.index) (sortParams l) := by
  induction l with
  | nil => simp [sortParams]
  | cons x xs ih =>
    show List.Sorted _ (insertParam x (sortParams xs))
    exact insertParam_sorted x (sortParams xs) ih

/-- C2: the resolver stably sorts the descriptors ascending by
argumentIndex (sortedness and permutation conjuncts) and resolves each
descriptor as: param gives pathParams[key] when a key is given (truthy)
and the whole path-parameter map otherwise; query follows the same pattern
on the query map; body gives the whole body; headers gives headers[key]
when a key is given and the whole header map otherwise; request and
response give the corresponding handles.  The final conjunct checks the
concrete example of the claim: descriptors (0, param, id) and
(1, query, include) against params id=42 and query include=x resolve to
the argument array [42, x]. -/
theorem c2_parameter_resolution :
    ∀ (req : AnxietyRequest) (p : ParamMetadata) (ps : List ParamMetadata),
    (p.type = ParamType.param →
      (keyTruthy p.key = true → resolveParam req p = strLookup req.params (p.key.getD ""))
      ∧ (keyTruthy p.key = false → resolveParam req p = Value.strMap req.params))
    ∧ (p.type = ParamType.query →
      (keyTruthy p.key = true → resolveParam req p = strLookup req.query (p.key.getD ""))
      ∧ (keyTruthy p.key = false → resolveParam req p = Value.strMap req.query))
    ∧ (p.type = ParamType.body → resolveParam req p = Value.bodyVal req.body)
    ∧ (p.type = ParamType.headers →
      (keyTruthy p.key = true → resolveParam req p = strLookup req.headers (p.key.getD ""))
      ∧ (keyTruthy p.key = false → resolveParam req p = Value.strMap req.headers))
    ∧ (p.type = ParamType.request → resolveParam req p = Value.reqRef)
    ∧ (p.type = ParamType.response → resolveParam req p = Value.resRef)
    ∧ List.Sorted (fun a b : ParamMetadata => a.index ≤ b.index) (sortParams ps)
    ∧ (sortParams ps).Perm ps
    ∧ extractMethodArguments
        { params := [("id", "42")], query := [("include", "x")], headers := [], body := "b0" }
        [{ index := 0, type := ParamType.param, key := some "id" },
         { index := 1, type := ParamType.query, key := some "include" }]
        = [Value.str "42", Value.str "x"] := by
  intro req p ps
  exact ⟨fun ht => ⟨fun hk => by simp [resolveParam, ht, hk],
                    fun hk => by simp [resolveParam, ht, hk]⟩,
         fun ht => ⟨fun hk => by simp [resolveParam, ht, hk],
                    fun hk => by simp [resolveParam, ht, hk]⟩,
         fun ht => by simp [resolveParam, ht],
         fun ht => ⟨fun hk => by simp [resolveParam, ht, hk],
                    fun hk => by simp [resolveParam, ht, hk]⟩,
         fun ht => by simp [resolveParam, ht],
         fun ht => by simp [resolveParam, ht],
         sortParams_sorted ps, sortParams_perm ps, by decide⟩

/-- Witness for C2 at a concrete descriptor and request. -/
theorem c2_parameter_resolution_witness :
    Anx.resolveParam
        { params := [("id", "42")], query := [], headers := [], body := "b0" }
        { index := 0, type := Anx.ParamType.param, key := some "id" }
      = Anx.strLookup [("id", "42")] "id" := by
  exact ((c2_parameter_resolution
    { params := [("id", "42")], query := [], headers := [], body := "b0" }
    { index := 0, type := Anx.ParamType.param, key := some "id" } []).1 rfl).1 (by decide)

/-- C6: the resolver is total (it is a function in this embedding; no
exception path exists in the source switch): a descriptor whose key is
absent from the corresponding map resolves to undefined (second conjunct,
for the three keyed sources), and argument positions not referenced by any
descriptor are left undefined, so the handler receives a sparse but
positionally correct argument array (first conjunct). -/
theorem c6_resolver_total :
    ∀ (req : AnxietyRequest) (ps : List ParamMetadata) (i : Nat),
    ((∀ p ∈ ps, p.index ≠ i) → argAt (extractMethodArguments req ps) i = Value.undef)
    ∧ (∀ p : ParamMetadata, keyTruthy p.key = true →
        (p.type = ParamType.param → req.params.lookup (p.key.getD "") = none →
          resolveParam req p = Value.undef)
        ∧ (p.type = ParamType.query → req.query.lookup (p.key.getD "") = none →
          resolveParam req p = Value.undef)
        ∧ (p.type = ParamType.headers → req.headers.lookup (p.key.getD "") = none →
          resolveParam req p = Value.undef)) := by
  intro req ps i
  constructor
  · intro h
    rw [extractMethodArguments, argAt_foldAssign]
    have hnil : (sortParams ps).filter (fun p => p.index == i) = [] := by
      rw [List.filter_eq_nil_iff]
      intro a ha
      have hmem : a ∈ ps := (sortParams_perm ps).mem_iff.mp ha
      simpa using h a hmem
    rw [hnil]
    simp [argAt]
  · intro p hk
    exact ⟨fun ht hl => by simp [resolveParam, ht, hk, strLookup, hl],
           fun ht hl => by simp [resolveParam, ht, hk, strLookup, hl],
           fun ht hl => by simp [resolveParam, ht, hk, strLookup, hl]⟩

/-- Witness for C6: a request without the looked-up key and an index no
descriptor references. -/
theorem c6_resolver_total_witness :
    Anx.argAt (Anx.extractMethodArguments
        { params := [], query := [], headers := [], body := "b0" }
        [{ index := 0, type := Anx.ParamType.body, key := none }]) 3
      = Anx.Value.undef ∧
    Anx.resolveParam
        { params := [], query := [], headers := [], body := "b0" }
        { index := 1, type := Anx.ParamType.param, key := some "id" }
      = Anx.Value.undef := by
  constructor
  · exact (c6_resolver_total
      { params := [], query := [], headers := [], body := "b0" }
      [{ index := 0, type := Anx.ParamType.body, key := none }] 3).1 (by decide)
  · exact (((c6_resolver_total
      { params := [], query := [], headers := [], body := "b0" } [] 0).2
      { index := 1, type := Anx.ParamType.param, key := some "id" } (by decide)).1 rfl (by decide))

/-- C7: when several descriptors carry the same argumentIndex, the value
finally stored at that position is the resolution of the descriptor
occurring last in the stably index-sorted list (last-wins); the resolver
is a pure function of its inputs, so re-running it on the same inputs
yields the same array by definition. -/
theorem c7_duplicate_index_last_wins :
    ∀ (req : AnxietyRequest) (ps : List ParamMetadata) (i : Nat)
      (h : (sortParams ps).filter (fun p => p.index == i) ≠ []),
    argAt (extractMethodArguments req ps) i
      = resolveParam req (((sortParams ps).filter (fun p => p.index == i)).getLast h) := by
  intro req ps i h
  rw [extractMethodArguments, argAt_foldAssign, List.getLast?_eq_getLast _ h]
  rfl

/-- Witness for C7: two descriptors share index 0; the later one (the
request handle) wins. -/
theorem c7_duplicate_index_last_wins_witness :
    Anx.argAt (Anx.extractMethodArguments
        { params := [], query := [], headers := [], body := "b0" }
        [{ index := 0, type := Anx.ParamType.body, key := none },
         { index := 0, type := Anx.ParamType.request, key := none }]) 0
      = Anx.Value.reqRef := by
  have h := c7_duplicate_index_last_wins
    { params := [], query := [], headers := [], body := "b0" }
    [{ index := 0, type := Anx.ParamType.body, key := none },
     { index := 0, type := Anx.ParamType.request, key := none }] 0 (by decide)
  rw [h]
  decide

/-- C5: for every thrown value that is neither an HttpException instance
nor one of the recognized error shapes (SyntaxError, TypeError, or the
four special names), the filter responds with status 500 and a body
carrying statusCode, timestamp, path, method, error and message fields;
and, for every thrown value whatsoever, the statusCode field of the body
equals the status set on the response (first conjunct).  The filter is a
total function of its inputs in this embedding, mirroring the source,
which has no throw and ends every branch in res.status(...).json(...). -/
theorem c5_unclassified_maps_to_500 :
    ∀ (isProd : Bool) (ts : String) (req : ReqInfo) (exc : JsError),
    (catchException isProd ts req exc).body.statusCode
        = (catchException isProd ts req exc).resStatus
    ∧ (exc.cls = ErrClass.otherError →
        exc.name ∉ (["ValidationError", "UnauthorizedError", "ForbiddenError",
                     "NotFoundError"] : List String) →
        (catchException isProd ts req exc).resStatus = 500
        ∧ (catchException isProd ts req exc).body.statusCode = 500
        ∧ (catchException isProd ts req exc).body.timestamp = ts
        ∧ (catchException isProd ts req exc).body.path = req.originalUrl
        ∧ (catchException isProd ts req exc).body.method = req.method
        ∧ (catchException isProd ts req exc).body.error = "Internal Server Error") := by
  intro isProd ts req exc
  refine ⟨rfl, fun hcls hname => ?_⟩
  have h1 : exc.name ≠ "ValidationError" := fun h => hname (by simp [h])
  have h2 : exc.name ≠ "UnauthorizedError" := fun h => hname (by simp [h])
  have h3 : exc.name ≠ "ForbiddenError" := fun h => hname (by simp [h])
  have h4 : exc.name ≠ "NotFoundError" := fun h => hname (by simp [h])
  simp [catchException, classifyException, hcls, h1, h2, h3, h4]

/-- Witness for C5: a plain Error named Error with message boom. -/
theorem c5_unclassified_maps_to_500_witness :
    (Anx.catchException false "t0" { originalUrl := "/u", method := "GET", requestId := none }
      { cls := Anx.ErrClass.otherError, name := "Error", message := "boom",
        stack := some "trace", status := 0, responseVal := Anx.Value.undef,
        errorProp := none }).resStatus = 500 := by
  exact ((c5_unclassified_maps_to_500 false "t0"
    { originalUrl := "/u", method := "GET", requestId := none }
    { cls := Anx.ErrClass.otherError, name := "Error", message := "boom",
      stack := some "trace", status := 0, responseVal := Anx.Value.undef,
      errorProp := none }).2 rfl (by decide)).1

/-- C8: the body produced for an unclassified error depends on the
production flag as a two-run property.  In production the message is the
fixed generic text, the stack field is absent, and the whole response is
identical for any two unclassified errors (so the body reveals nothing of
the thrown error); outside production the body carries the raw stack of
the error and, when the thrown message is truthy, that original message. -/
theorem c8_error_body_production_redaction :
    ∀ (ts : String) (req : ReqInfo) (exc1 exc2 : JsError),
    exc1.cls = ErrClass.otherError →
    exc1.name ∉ (["ValidationError", "UnauthorizedError", "ForbiddenError",
                  "NotFoundError"] : List String) →
    exc2.cls = ErrClass.otherError →
    exc2.name ∉ (["ValidationError", "UnauthorizedError", "ForbiddenError",
                  "NotFoundError"] : List String) →
    ((catchException true ts req exc1).body.message = Value.str "Internal server error"
     ∧ (catchException true ts req exc1).body.stack = none
     ∧ catchException true ts req exc1 = catchException true ts req exc2
     ∧ (catchException false ts req exc1).body.stack = exc1.stack
     ∧ (exc1.message ≠ "" →
         (catchException false ts req exc1).body.message = Value.str exc1.message)) := by
  intro ts req exc1 exc2 hc1 hn1 hc2 hn2
  have h11 : exc1.name ≠ "ValidationError" := fun h => hn1 (by simp [h])
  have h12 : exc1.name ≠ "UnauthorizedError" := fun h => hn1 (by simp [h])
  have h13 : exc1.name ≠ "ForbiddenError" := fun h => hn1 (by simp [h])
  have h14 : exc1.name ≠ "NotFoundError" := fun h => hn1 (by simp [h])
  have h21 : exc2.name ≠ "ValidationError" := fun h => hn2 (by simp [h])
  have h22 : exc2.name ≠ "UnauthorizedError" := fun h => hn2 (by simp [h])
  have h23 : exc2.name ≠ "ForbiddenError" := fun h => hn2 (by simp [h])
  have h24 : exc2.name ≠ "NotFoundError" := fun h => hn2 (by simp [h])
  refine ⟨?_, ?_, ?_, ?_, fun hm => ?_⟩
  · simp [catchException, classifyException, hc1, h11, h12, h13, h14]
  · simp [catchException]
  · simp [catchException, classifyException, hc1, h11, h12, h13, h14,
      hc2, h21, h22, h23, h24]
  · simp [catchException]
  · simp [catchException, classifyException, hc1, h11, h12, h13, h14, jsOrStr, hm]

/-- Witness for C8: two distinct unclassified errors in both modes. -/
theorem c8_error_body_production_redaction_witness :
    (Anx.catchException true "t0" { originalUrl := "/u", method := "GET", requestId := none }
        { cls := Anx.ErrClass.otherError, name := "Error", message := "boom",
          stack := some "trace", status := 0, responseVal := Anx.Value.undef,
          errorProp := none }).body.message = Anx.Value.str "Internal server error"
    ∧ Anx.catchException true "t0" { originalUrl := "/u", method := "GET", requestId := none }
        { cls := Anx.ErrClass.otherError, name := "Error", message := "boom",
          stack := some "trace", status := 0, responseVal := Anx.Value.undef,
          errorProp := none }
      = Anx.catchException true "t0" { originalUrl := "/u", method := "GET", requestId := none }
        { cls := Anx.ErrClass.otherError, name := "FooError", message := "secret",
          stack := some "other", status := 0, responseVal := Anx.Value.undef,
          errorProp := none } := by
  have h := c8_error_body_production_redaction "t0"
    { originalUrl := "/u", method := "GET", requestId := none }
    { cls := Anx.ErrClass.otherError, name := "Error", message := "boom",
      stack := some "trace", status := 0, responseVal := Anx.Value.undef,
      errorProp := none }
    { cls := Anx.ErrClass.otherError, name := "FooError", message := "secret",
      stack := some "other", status := 0, responseVal := Anx.Value.undef,
      errorProp := none }
    rfl (by decide) rfl (by decide)
  exact ⟨h.1, h.2.2.1⟩

/-- Prepending a separator slash to a clean, non-slash-headed list creates
no doubled slash. -/
theorem hasDoubleSlash_slash_cons (b : List Char) (hhead : b.head? ≠ some '/')
    (hb : hasDoubleSlash b = false) : hasDoubleSlash ('/' :: b) = false := by
  cases b with
  | nil => rfl
  | cons c bt =>
    have hc : ¬ c = '/' := by simpa using hhead
    have h1 : (c == '/') = false := by simpa using hc
    calc hasDoubleSlash ('/' :: c :: bt)
        = ((('/' == '/') && (c == '/')) || hasDoubleSlash (c :: bt)) := rfl
      _ = false := by rw [h1, hb]; rfl

/-- Joining two clean lists with a separator slash creates no doubled
slash when the left one does not end in a slash and the right one does not
start with one. -/
theorem hasDoubleSlash_glue (b : List Char) (hhead : b.head? ≠ some '/')
    (hb : hasDoubleSlash b = false) :
    ∀ a : List Char, hasDoubleSlash a = false → a.getLast? ≠ some '/' →
      hasDoubleSlash (a ++ '/' :: b) = false := by
  intro a
  induction a with
  | nil => exact fun _ _ => hasDoubleSlash_slash_cons b hhead hb
  | cons x a' ih =>
    intro ha hlast
    cases a' with
    | nil =>
      have hx : ¬ x = '/' := by simpa using hlast
      have h1 : (x == '/') = false := by simpa using hx
      calc hasDoubleSlash (x :: '/' :: b)
          = ((((x == '/')) && ('/' == '/')) || hasDoubleSlash ('/' :: b)) := rfl
        _ = false := by rw [h1, hasDoubleSlash_slash_cons b hhead hb]; rfl
    | cons x2 a'' =>
      have ha2 : (((x == '/') && (x2 == '/')) || hasDoubleSlash (x2 :: a'')) = false := ha
      obtain ⟨h1, h2⟩ := Bool.or_eq_false_iff.mp ha2
      have hlast' : (x2 :: a'').getLast? ≠ some '/' := by
        rwa [List.getLast?_cons_cons] at hlast
      calc hasDoubleSlash ((x :: x2 :: a'') ++ '/' :: b)
          = ((((x == '/')) && (x2 == '/')) || hasDoubleSlash ((x2 :: a'') ++ '/' :: b)) := rfl
        _ = false := by rw [h1, ih h2 hlast']; rfl

/-- The slash-join of well-formed segments is itself clean: no doubled
slash, no leading slash, no trailing slash, and nonempty when at least one
segment exists. -/
theorem joinSlash_good :
    ∀ segs : List (List Char), (∀ s ∈ segs, goodSeg s) →
      hasDoubleSlash (joinSlash segs) = false
      ∧ (joinSlash segs).head? ≠ some '/'
      ∧ (joinSlash segs).getLast? ≠ some '/'
      ∧ (segs ≠ [] → joinSlash segs ≠ []) := by
  intro segs
  induction segs with
  | nil =>
    exact fun _ => ⟨rfl, by simp [joinSlash], by simp [joinSlash], fun h => absurd rfl h⟩
  | cons x rest ih =>
    intro h
    obtain ⟨h1, h2, h3, h4⟩ := h x (List.mem_cons_self x rest)
    cases rest with
    | nil => exact ⟨h4, h2, h3, fun _ => h1⟩
    | cons y t =>
      obtain ⟨hJds, hJhead, hJlast, hJne⟩ := ih (fun s hs => h s (List.mem_cons_of_mem x hs))
      have hJne' : joinSlash (y :: t) ≠ [] := hJne (List.cons_ne_nil y t)
      refine ⟨?_, ?_, ?_, fun _ => ?_⟩
      · exact hasDoubleSlash_glue (joinSlash (y :: t)) hJhead hJds x h4 h3
      · cases x with
        | nil => exact absurd rfl h1
        | cons c ct =>
          show ((c :: ct) ++ '/' :: joinSlash (y :: t)).head? ≠ some '/'
          simpa using h2
      · show ((x ++ '/' :: joinSlash (y :: t)).getLast? ≠ some '/')
        rw [List.getLast?_append]
        cases hJ : joinSlash (y :: t) with
        | nil => exact absurd hJ hJne'
        | cons j jt =>
          rw [List.getLast?_cons_cons, List.getLast?_eq_getLast _ (List.cons_ne_nil j jt)]
          rw [hJ, List.getLast?_eq_getLast _ (List.cons_ne_nil j jt)] at hJlast
          simpa using hJlast
      · cases x with
        | nil => exact absurd rfl h1
        | cons c ct =>
          show ((c :: ct) ++ '/' :: joinSlash (y :: t)) ≠ []
          simp

/-- Guarded well-formedness of combineCL: when every kept segment strips
to a well-formed piece, the combined path has no doubled slash, and it can
only end in a slash by being the bare root path. -/
theorem combineCL_wellFormed (cl : List (List Char))
    (h : ∀ p ∈ cl, keepSegment ⟨p⟩ = true → goodSeg (stripSlash p)) :
    hasDoubleSlash (combineCL cl) = false
    ∧ ((combineCL cl).getLast? = some '/' → combineCL cl = ['/']) := by
  have hclean : ∀ s ∈ (cl.filter (fun p => keepSegment ⟨p⟩)).map stripSlash, goodSeg s := by
    intro s hs
    rw [List.mem_map] at hs
    obtain ⟨p, hp, hps⟩ := hs
    rw [List.mem_filter] at hp
    rw [← hps]
    exact h p hp.1 hp.2
  cases hc : (cl.filter (fun p => keepSegment ⟨p⟩)).map stripSlash with
  | nil =>
    have hval : combineCL cl = ['/'] := by simp [combineCL, hc, joinSlash]
    rw [hval]
    exact ⟨rfl, fun _ => rfl⟩
  | cons c ct =>
    obtain ⟨hds, hhead, hlast, hne⟩ := joinSlash_good (c :: ct) (hc ▸ hclean)
    have hJne : joinSlash (c :: ct) ≠ [] := hne (List.cons_ne_nil c ct)
    have hcond1 : ¬('/' :: joinSlash (c :: ct) = ['/']) := by
      intro habs
      exact hJne (by simpa using habs)
    have hcond2 : ¬(('/' :: joinSlash (c :: ct)).getLast? = some '/') := by
      cases hJ : joinSlash (c :: ct) with
      | nil => exact absurd hJ hJne
      | cons j jt =>
        rw [List.getLast?_cons_cons]
        rw [hJ] at hlast
        exact hlast
    have hval : combineCL cl = '/' :: joinSlash (c :: ct) := by
      simp only [combineCL, hc, if_neg hcond1, dropTrailSlash, if_neg hcond2]
    rw [hval]
    exact ⟨hasDoubleSlash_slash_cons _ hhead hds, fun habs => absurd habs hcond2⟩

/-- C3 counterexample: the segment list slash, a is kept by the truthiness
filter, its first segment strips to the empty piece, and the output //a
contains a doubled separator, contradicting the claim that no output
contains a doubled slash for every list of segments. -/
theorem c3_counterexample_double_slash :
    combinePaths ["/", "a"] = "//a"
    ∧ hasDoubleSlash (combinePaths ["/", "a"]).data = true := by decide

/-- C3 (amended): combinePaths drops empty or whitespace-only segments,
strips at most one leading and at most one trailing slash from each
survivor (the regex is anchored, so only a single slash is removed at each
end), joins the remainder with single slash separators under one leading
slash, and collapses to the bare slash when everything is dropped; the two
concrete normalizations of the claim hold, and the no-doubled-slash and
no-trailing-slash guarantees hold provided every kept segment strips to a
nonempty piece with no leading, trailing or doubled slash of its own. -/
theorem c3_amended_path_combination :
    combinePaths ["", "/test/", "/:id"] = "/test/:id"
    ∧ combinePaths ["test", "", ":id"] = "/test/:id"
    ∧ combinePaths [] = "/"
    ∧ (∀ paths : List String,
        (∀ p ∈ paths, keepSegment p = true → goodSeg (stripSlash p.data)) →
        hasDoubleSlash (combinePaths paths).data = false
        ∧ ((combinePaths paths).data.getLast? = some '/' → combinePaths paths = "/")) := by
  refine ⟨by decide, by decide, by decide, fun paths h => ?_⟩
  have h2 : ∀ p ∈ paths.map String.data, keepSegment ⟨p⟩ = true → goodSeg (stripSlash p) := by
    intro p hp
    rw [List.mem_map] at hp
    obtain ⟨s, hs, hsp⟩ := hp
    rw [← hsp]
    exact h s hs
  obtain ⟨ha, hb⟩ := combineCL_wellFormed (paths.map String.data) h2
  refine ⟨ha, fun habs => ?_⟩
  have hv := hb habs
  show (⟨combineCL (paths.map String.data)⟩ : String) = "/"
  rw [hv]

/-- Witness for the amended C3 at the concrete example segments. -/
theorem c3_amended_path_combination_witness :
    Anx.hasDoubleSlash (Anx.combinePaths ["", "/test/", "/:id"]).data = false := by
  exact (c3_amended_path_combination.2.2.2 ["", "/test/", "/:id"] (by decide)).1
